import Mathlib

/-!
Verification of the Search-Engine repository's specification against a
shallow embedding of its code.

Part 1: the query proxy.  Two implementations exist in the sources:
the Go backend (`src/backend/main.go`, Gin server) and the serverless
JavaScript handler (`src/api/search.js`).  Both are embedded below.

Part 2: the crawl pipeline (Frontier, Deduplicator, Orchestrator).  The
crawler script itself is not among the source files (only its Dockerfile
is), so those components are modelled from the specification text.
-/

namespace SearchEngine

/-! ### JSON values

A search-engine hit, after Go's `json.Marshal`/`json.Unmarshal` round trip,
is a `map[string]interface{}`; in the JS handler it is a plain object.
Both are embedded as association lists of `JValue`s. -/

inductive JValue where
  | str (s : String) : JValue
  | num (n : Int) : JValue
  | bool (b : Bool) : JValue
  | null : JValue
  | arr (xs : List JValue) : JValue
  | obj (fields : List (String × JValue)) : JValue

/-- A hit as delivered by the search engine: a JSON object. -/
abbrev Hit := List (String × JValue)

/-! ### Go backend (`src/backend/main.go`) -/

/-- Embeds `getString` (main.go lines 205-212): map lookup, returning the
value only when present and a string, and `""` otherwise. -/
def getString (m : Hit) (key : String) : String :=
  match List.lookup key m with
  | some (JValue.str s) => s
  | some _ => ""
  | none => ""

/-- Embeds the `SearchResult` struct (main.go lines 17-23).  In the source
`Score` is a `float64`, but the only values ever stored in it are
`float64(len(hits) - i)` — exact small integers — so it is embedded as
`Int`. -/
structure SearchResult where
  id : String
  title : String
  content : String
  url : String
  score : Int
deriving Repr, DecidableEq

/-- One iteration of the result-building loop in `performSearch`
(main.go lines 192-200): `n` is `len(searchRes.Hits)`, `i` the hit index. -/
def goMkResult (n i : Nat) (hit : Hit) : SearchResult :=
  { id := getString hit "id"
    title := getString hit "title"
    content := getString hit "content"
    url := getString hit "url"
    score := (n : Int) - (i : Int) }

/-- The result-building loop of `performSearch` (main.go lines 184-201),
with the hit counter `i` made explicit.  The `json.Marshal` /
`json.Unmarshal` round trip in the source cannot fail on a decoded JSON
object, so every hit contributes one result. -/
def goBuildFrom (n i : Nat) : List Hit → List SearchResult
  | [] => []
  | h :: hs => goMkResult n i h :: goBuildFrom n (i + 1) hs

/-- `performSearch`'s transformation of the engine's hit list into the
result list (main.go lines 179-203). -/
def goBuildResults (hits : List Hit) : List SearchResult :=
  goBuildFrom hits.length 0 hits

/-- The search engine as seen by the Go backend: the `index.Search` call,
which either fails with an error or returns a list of hits.  It is an
oracle parameter of the embedding. -/
abbrev GoEngine := String → Int → Except String (List Hit)

/-- Embeds `performSearch` (main.go lines 179-203): forward the query and
limit to the engine; on error propagate it, on success build the results. -/
def performSearch (engine : GoEngine) (query : String) (limit : Int) :
    Except String (List SearchResult) :=
  match engine query limit with
  | Except.error e => Except.error e
  | Except.ok hits => Except.ok (goBuildResults hits)

/-- Value of a run of decimal digits, `none` when empty or when any
character is not a digit (the all-or-nothing behaviour of
`strconv.Atoi`). -/
def digitsVal (cs : List Char) : Option Nat :=
  if cs.isEmpty then none
  else
    cs.foldl
      (fun acc c =>
        match acc with
        | none => none
        | some n => if c.isDigit then some (10 * n + (c.toNat - 48)) else none)
      (some 0)

/-- Embeds Go's `strconv.Atoi`: optional single sign, then one or more
decimal digits; any other input — and any value outside the 64-bit signed
range (`ErrRange`) — yields an error (`none`). -/
def atoi (s : String) : Option Int :=
  let signAndDigits : Bool × List Char :=
    match s.data with
    | '+' :: rest => (true, rest)
    | '-' :: rest => (false, rest)
    | cs => (true, cs)
  match digitsVal signAndDigits.2 with
  | none => none
  | some n =>
    let v : Int := if signAndDigits.1 then (n : Int) else -(n : Int)
    if v < -(2 ^ 63) ∨ (2 ^ 63 - 1 : Int) < v then none else some v

/-- Embeds the limit computation of the search endpoint (main.go lines
106-111): `c.DefaultQuery("limit", "20")` (the default applies only when
the parameter is absent), then `strconv.Atoi`, falling back to 20 on any
parse error. -/
def goComputeLimit (limitParam : Option String) : Int :=
  let limitStr := limitParam.getD "20"
  match atoi limitStr with
  | some v => v
  | none => 20

/-- The Go `SearchResponse` struct (main.go lines 26-32) together with the
HTTP status code the handler writes.  Fields left at their Go zero values
are the ones `omitempty` drops from the serialized JSON. -/
structure GoResponse where
  status : Nat
  success : Bool
  results : List SearchResult := []
  error : String := ""
  query : String := ""
  total : Nat := 0
deriving Repr, DecidableEq

/-- Embeds the `/search` handler (main.go lines 96-131).  `c.Query "q"`
returns `""` when the parameter is absent, so an absent `qParam` is
`Option.getD` to the empty string. -/
def searchEndpoint (engine : GoEngine) (qParam limitParam : Option String) :
    GoResponse :=
  let query := qParam.getD ""
  if query = "" then
    { status := 400
      success := false
      error := "Query parameter \x27q\x27 is required" }
  else
    let limit := goComputeLimit limitParam
    match performSearch engine query limit with
    | Except.error e =>
      { status := 500
        success := false
        error := "Search failed: " ++ e
        query := query }
    | Except.ok results =>
      { status := 200
        success := true
        results := results
        query := query
        total := results.length }

/-! ### Go configuration loading (`src/backend/main.go` lines 34-56) -/

/-- The environment as Go's `os.Getenv` sees it: a total map from names to
values, with `""` for unset variables (Go does not distinguish unset from
empty here). -/
abbrev GoEnv := String → String

/-- Embeds `getEnv` (main.go lines 51-56): use the environment value only
when non-empty, otherwise the default. -/
def getEnv (env : GoEnv) (key defaultValue : String) : String :=
  if env key ≠ "" then env key else defaultValue

/-- The `Config` struct (main.go lines 35-40). -/
structure Config where
  meilisearchURL : String
  meilisearchKey : String
  port : String
  indexName : String
deriving Repr, DecidableEq

/-- Embeds `loadConfig` (main.go lines 42-49). -/
def loadConfig (env : GoEnv) : Config :=
  { meilisearchURL := getEnv env "MEILISEARCH_URL" "http://meilisearch:7700"
    meilisearchKey := getEnv env "MEILISEARCH_KEY" "masterKey123"
    port := getEnv env "PORT" "8080"
    indexName := getEnv env "INDEX_NAME" "documents" }

/-! ### Serverless JavaScript handler (`src/api/search.js`) -/

/-- JavaScript truthiness restricted to the values of `JValue`:
`undefined`/`null`, `""`, `0` and `false` are falsy. -/
def jTruthy : JValue → Bool
  | JValue.str s => s ≠ ""
  | JValue.num n => n ≠ 0
  | JValue.bool b => b
  | JValue.null => false
  | JValue.arr _ => true
  | JValue.obj _ => true

/-- The JS `x || d` idiom applied to a possibly-absent object property:
`d` when the property is absent or falsy, the property value otherwise. -/
def jsOr (v : Option JValue) (d : JValue) : JValue :=
  match v with
  | some x => if jTruthy x then x else d
  | none => d

/-- Shape of one formatted result in search.js (lines 47-53).  The hit
fields pass through `||` with defaults, so they keep whatever JSON type
the hit had; the score is always the number `hits.length - index`. -/
structure JSResult where
  id : JValue
  title : JValue
  content : JValue
  url : JValue
  score : Int

/-- One step of `searchResults.hits.map((hit, index) => ...)`
(search.js lines 47-53): `n` is `hits.length`, `i` the index. -/
def jsMkResult (n i : Nat) (hit : Hit) : JSResult :=
  { id := jsOr (List.lookup "id" hit) (JValue.str ("result-" ++ toString i))
    title := jsOr (List.lookup "title" hit) (JValue.str "Untitled")
    content := jsOr (List.lookup "content" hit) (JValue.str "")
    url := jsOr (List.lookup "url" hit) (JValue.str "#")
    score := (n : Int) - (i : Int) }

/-- The `hits.map` of search.js lines 47-53, with the index explicit. -/
def jsBuildFrom (n i : Nat) : List Hit → List JSResult
  | [] => []
  | h :: hs => jsMkResult n i h :: jsBuildFrom n (i + 1) hs

/-- The full result formatting of search.js (lines 47-53). -/
def jsBuildResults (hits : List Hit) : List JSResult :=
  jsBuildFrom hits.length 0 hits

/-- Embeds JS `String.prototype.trim`: strip leading and trailing
whitespace. -/
def jsTrim (s : String) : String :=
  String.mk
    (((s.data.dropWhile Char.isWhitespace).reverse.dropWhile
        Char.isWhitespace).reverse)

/-- A JavaScript number that may be `NaN` (`none`), as produced by
`parseInt` on a non-numeric string. -/
abbrev JSNumber := Option Int

/-- Embeds JS `parseInt(s)` on the decimal strings the handler receives:
optional sign then the longest leading digit run; `NaN` (`none`) when no
leading digit exists. -/
def jsParseInt (s : String) : JSNumber :=
  let signAndDigits : Bool × List Char :=
    match (s.data.dropWhile Char.isWhitespace) with
    | '+' :: rest => (true, rest)
    | '-' :: rest => (false, rest)
    | cs => (true, cs)
  let digits := signAndDigits.2.takeWhile Char.isDigit
  if digits.isEmpty then none
  else
    let n : Nat := digits.foldl (fun acc c => 10 * acc + (c.toNat - 48)) 0
    some (if signAndDigits.1 then (n : Int) else -(n : Int))

/-- The limit the JS handler passes to `index.search` (search.js lines
24 and 36): destructuring default `20` when the query parameter is
absent, otherwise `parseInt` of the raw string. -/
def jsComputeLimit (limitParam : Option String) : JSNumber :=
  match limitParam with
  | none => some 20
  | some s => jsParseInt s

/-- The search engine as seen by the JS handler: `index.search`, taking
the query and a (possibly `NaN`) limit. -/
abbrev JsEngine := String → JSNumber → Except String (List Hit)

/-- The JSON body plus HTTP status written by the JS handler.  The
`message` field is populated only in the catch branch, `processingTimeMs`
only on success (embedded as the engine's hit count is; timing itself has
no behavioural content and is omitted). -/
structure JSResponse where
  status : Nat
  success : Bool
  results : List JSResult := []
  error : String := ""
  message : String := ""
  query : String := ""
  total : Nat := 0

/-- Embeds `handler` of search.js (lines 9-72): OPTIONS preflight,
405 on non-GET, 400 on missing/blank `q`, 500 envelope when the engine
call throws, success envelope otherwise. -/
def jsHandler (engine : JsEngine) (method : String)
    (qParam limitParam : Option String) : JSResponse :=
  if method = "OPTIONS" then
    { status := 200, success := true }
  else if method ≠ "GET" then
    { status := 405, success := false, error := "Method not allowed" }
  else
    match qParam with
    | none =>
      { status := 400
        success := false
        error := "Query parameter \x22q\x22 is required" }
    | some query =>
      if query = "" ∨ jsTrim query = "" then
        { status := 400
          success := false
          error := "Query parameter \x22q\x22 is required" }
      else
        match engine query (jsComputeLimit limitParam) with
        | Except.error e =>
          { status := 500
            success := false
            error := "Search failed"
            message := e }
        | Except.ok hits =>
          let results := jsBuildResults hits
          { status := 200
            success := true
            results := results
            query := query
            total := results.length }

/-! ### Crawl pipeline

The crawler script (`crawler.py`) is not among the provided source files —
only its Dockerfile is — so the Frontier, Deduplicator and Orchestrator
below are modelled from the specification text (§3, §4.1, §4.5, §4.7). -/

/-- Modelled from the spec: `FrontierEntry` (§3) of the missing
`crawler.py` — `{url: normalized URL, depth, discoveredFrom}`; the `url`
field already carries the normalized form, so entry identity is equality
of `url`. -/
structure FrontierEntry where
  url : String
  depth : Nat
  discoveredFrom : Option String
deriving Repr, DecidableEq

/-- Modelled from the spec: the Frontier's pending FIFO queue together
with the `VisitedSet` of normalized URLs already dequeued (§3, §4.1) of
the missing `crawler.py`. -/
structure FrontierState where
  queue : List FrontierEntry
  visited : List String
deriving Repr, DecidableEq

/-- The normalized URLs currently pending in the Frontier. -/
def FrontierState.queueUrls (st : FrontierState) : List String :=
  st.queue.map FrontierEntry.url

/-- Modelled from the spec: crawler configuration (§6) of the missing
`crawler.py` — the `MAX_PAGES` page budget and the depth cap of §4.1. -/
structure CrawlConfig where
  maxPages : Nat
  maxDepth : Nat
deriving Repr, DecidableEq

/-- Modelled from the spec: `offer(entry)` (§4.1) of the missing
`crawler.py` — drop entries beyond the depth cap silently; no-op (not an
error) when the normalized URL is already in the Frontier or the
VisitedSet; otherwise append in discovery order (FIFO). -/
def offer (cfg : CrawlConfig) (st : FrontierState) (e : FrontierEntry) :
    FrontierState :=
  if cfg.maxDepth < e.depth then st
  else if e.url ∈ st.queueUrls ∨ e.url ∈ st.visited then st
  else { st with queue := st.queue ++ [e] }

/-- Modelled from the spec: `take()` (§4.1, §3) of the missing
`crawler.py` — remove and return the oldest entry, recording its
normalized URL in the VisitedSet regardless of later fetch outcome;
`none` signals a drained frontier. -/
def ftake (st : FrontierState) : Option FrontierEntry × FrontierState :=
  match st.queue with
  | [] => (none, st)
  | e :: rest => (some e, { queue := rest, visited := e.url :: st.visited })

/-- An externally chosen Frontier operation, for stating run-wide
invariants over arbitrary interleavings of offers and takes. -/
inductive FrontierOp where
  | offerOp (e : FrontierEntry) : FrontierOp
  | takeOp : FrontierOp
deriving Repr, DecidableEq

/-- Apply one operation; a take records what it returned. -/
def applyFrontierOp (cfg : CrawlConfig) (st : FrontierState) :
    FrontierOp → FrontierState × Option FrontierEntry
  | FrontierOp.offerOp e => (offer cfg st e, none)
  | FrontierOp.takeOp =>
    let r := ftake st
    (r.2, r.1)

/-- Run a list of operations from a state, collecting the entries the
takes returned, in order. -/
def runFrontierOps (cfg : CrawlConfig) (st : FrontierState) :
    List FrontierOp → FrontierState × List FrontierEntry
  | [] => (st, [])
  | op :: ops =>
    let r := applyFrontierOp cfg st op
    let rest := runFrontierOps cfg r.1 ops
    (rest.1, (r.2.toList) ++ rest.2)

/-- Modelled from the spec: `Document` (§3) of the missing `crawler.py`
— id, title, plain-text content, url and the content hash the
Deduplicator fingerprints. -/
structure Document where
  id : Nat
  title : String
  content : String
  url : String
  contentHash : Nat
deriving Repr, DecidableEq

/-- Modelled from the spec: `shouldIndex(document)` (§4.5) of the missing
`crawler.py` — false when the content hash is already registered,
otherwise register it and return true.  The registry value (a last-seen
timestamp in the spec) plays no role in the decision and is elided. -/
def shouldIndex (reg : List Nat) (h : Nat) : Bool × List Nat :=
  if h ∈ reg then (false, reg) else (true, h :: reg)

/-- Sequentially run the Deduplicator over the content hashes of one
crawl run, starting from registry `reg`, returning each decision in
order. -/
def dedupFlags (reg : List Nat) : List Nat → List Bool
  | [] => []
  | h :: hs =>
    let r := shouldIndex reg h
    r.1 :: dedupFlags r.2 hs

/-- Modelled from the spec: a fetched-and-extracted page (§4.3-§4.4) of
the missing `crawler.py`, reduced to what the orchestrator consumes —
the extracted document and the outbound normalized links. -/
structure Page where
  doc : Document
  links : List String
deriving Repr, DecidableEq

/-- Modelled from the spec: the crawl's external collaborators (§4.2,
§4.3) of the missing `crawler.py` as oracles — the robots-exclusion
decision and the fetch-and-extract outcome (`none` covers fetch error
and non-HTML content alike: the entry is discarded and the loop
continues). -/
structure Web where
  allowed : String → Bool
  fetch : String → Option Page

/-- Modelled from the spec: the orchestrator's state-machine phases
(§4.7) of the missing `crawler.py`. -/
inductive Phase where
  | running : Phase
  | draining : Phase
  | done : Phase
deriving Repr, DecidableEq

/-- Modelled from the spec: the whole orchestrator state (§4.7) of the
missing `crawler.py`: phase, Frontier + VisitedSet, fetch counter,
ContentFingerprint registry, the Index Sink's buffer and the documents
already delivered by `flush`. -/
structure CrawlState where
  phase : Phase
  frontier : FrontierState
  fetchCount : Nat
  fingerprints : List Nat
  sink : List Document
  delivered : List Document
deriving Repr, DecidableEq

/-- The initial orchestrator state: seeds offered at depth 0. -/
def initCrawlState (cfg : CrawlConfig) (seeds : List String) : CrawlState :=
  { phase := Phase.running
    frontier := seeds.foldl
      (fun st u => offer cfg st { url := u, depth := 0, discoveredFrom := none })
      { queue := [], visited := [] }
    fetchCount := 0
    fingerprints := []
    sink := []
    delivered := [] }

/-- Modelled from the spec: one iteration of the orchestrator loop
(§4.7) of the missing `crawler.py`.  Running: `take()`; empty frontier →
Draining; budget reached → Draining; robots-disallowed → discard and
continue; fetch (counted) then on error discard and continue; dedup;
when indexable, submit to the sink and offer each discovered link at
`depth + 1`.  Draining: `flush()` the sink, then Done. -/
def crawlStep (cfg : CrawlConfig) (web : Web) (st : CrawlState) : CrawlState :=
  match st.phase with
  | Phase.done => st
  | Phase.draining =>
    { st with
      phase := Phase.done
      sink := []
      delivered := st.delivered ++ st.sink }
  | Phase.running =>
    match ftake st.frontier with
    | (none, _) => { st with phase := Phase.draining }
    | (some e, fr) =>
      if cfg.maxPages ≤ st.fetchCount then
        { st with phase := Phase.draining }
      else if ¬ web.allowed e.url then
        { st with frontier := fr }
      else
        match web.fetch e.url with
        | none => { st with frontier := fr, fetchCount := st.fetchCount + 1 }
        | some page =>
          let r := shouldIndex st.fingerprints page.doc.contentHash
          if r.1 then
            { st with
              frontier := page.links.foldl
                (fun s u =>
                  offer cfg s { url := u, depth := e.depth + 1, discoveredFrom := some e.url })
                fr
              fetchCount := st.fetchCount + 1
              fingerprints := r.2
              sink := st.sink ++ [page.doc] }
          else
            { st with frontier := fr, fetchCount := st.fetchCount + 1 }

/-- Iterate the orchestrator a bounded number of steps (every real run is
finite: the budget and depth cap bound it; the fuel only makes the
iteration structurally recursive). -/
def crawlRun (cfg : CrawlConfig) (web : Web) : Nat → CrawlState → CrawlState
  | 0, st => st
  | n + 1, st => crawlRun cfg web n (crawlStep cfg web st)

/-! ## Helper lemmas -/

theorem string_append_ne_empty (s t : String) (hs : s ≠ "") : s ++ t ≠ "" := by
  intro h
  apply hs
  cases s with
  | mk d =>
    cases t with
    | mk d2 =>
      have hdd : d ++ d2 = [] := by
        have := congrArg String.data h
        simpa using this
      have hd : d = [] := by
        cases d with
        | nil => rfl
        | cons a as => simp at hdd
      simp [hd]

theorem getEnv_ne_empty (env : GoEnv) (key d : String) (hd : d ≠ "") :
    getEnv env key d ≠ "" := by
  unfold getEnv
  by_cases h : env key = ""
  · simp [h, hd]
  · simp [h]

/-! ## Claims about the query proxy -/

/-- Claim C1: a request whose `q` parameter is absent or empty draws a
400 client-error envelope — success false, a non-empty error message, no
results — and no search is performed (the response is independent of the
search engine).  Proved for the Go backend handler and the JS handler. -/
theorem c1_empty_query_client_error (goEng goEng2 : GoEngine)
    (jsEng jsEng2 : JsEngine) (qParam limitParam jsLimitParam : Option String)
    (hq : qParam = none ∨ qParam = some "") :
    (searchEndpoint goEng qParam limitParam).status = 400 ∧
    (searchEndpoint goEng qParam limitParam).success = false ∧
    (searchEndpoint goEng qParam limitParam).error ≠ "" ∧
    (searchEndpoint goEng qParam limitParam).results = [] ∧
    searchEndpoint goEng qParam limitParam =
      searchEndpoint goEng2 qParam limitParam ∧
    (jsHandler jsEng "GET" qParam jsLimitParam).status = 400 ∧
    (jsHandler jsEng "GET" qParam jsLimitParam).success = false ∧
    (jsHandler jsEng "GET" qParam jsLimitParam).error ≠ "" ∧
    (jsHandler jsEng "GET" qParam jsLimitParam).results = [] ∧
    jsHandler jsEng "GET" qParam jsLimitParam =
      jsHandler jsEng2 "GET" qParam jsLimitParam := by
  rcases hq with rfl | rfl <;>
    exact ⟨rfl, rfl, (by decide : "Query parameter \x27q\x27 is required" ≠ ""),
      rfl, rfl, rfl, rfl,
      (by decide : "Query parameter \x22q\x22 is required" ≠ ""), rfl, rfl⟩

/-- Witness for C1 at the concrete request with `q` absent. -/
theorem c1_empty_query_client_error_witness :
    (searchEndpoint (fun _ _ => Except.ok []) none none).status = 400 ∧
    (jsHandler (fun _ _ => Except.ok []) "GET" none none).status = 400 := by
  have h := c1_empty_query_client_error (fun _ _ => Except.ok [])
    (fun _ _ => Except.error "e") (fun _ _ => Except.ok [])
    (fun _ _ => Except.error "e") none none none (Or.inl rfl)
  exact ⟨h.1, h.2.2.2.2.2.1⟩

/-- Claim C2: when the search-engine call fails, the proxy answers with a
500 server-error envelope (success false, non-empty error message) and
returns normally — in the embedding the handler is a total function that
produces this response.  Proved for both handlers. -/
theorem c2_engine_failure_server_error (goEng : GoEngine) (jsEng : JsEngine)
    (q e1 e2 : String) (limitParam jsLimitParam : Option String)
    (hq : q ≠ "") (hqt : jsTrim q ≠ "")
    (hgo : goEng q (goComputeLimit limitParam) = Except.error e1)
    (hjs : jsEng q (jsComputeLimit jsLimitParam) = Except.error e2) :
    (searchEndpoint goEng (some q) limitParam).status = 500 ∧
    (searchEndpoint goEng (some q) limitParam).success = false ∧
    (searchEndpoint goEng (some q) limitParam).error ≠ "" ∧
    (jsHandler jsEng "GET" (some q) jsLimitParam).status = 500 ∧
    (jsHandler jsEng "GET" (some q) jsLimitParam).success = false ∧
    (jsHandler jsEng "GET" (some q) jsLimitParam).error ≠ "" := by
  have hgo2 : searchEndpoint goEng (some q) limitParam =
      { status := 500, success := false,
        error := "Search failed: " ++ e1, query := q } := by
    simp [searchEndpoint, performSearch, hq, hgo]
  have hjs2 : jsHandler jsEng "GET" (some q) jsLimitParam =
      { status := 500, success := false,
        error := "Search failed", message := e2 } := by
    simp [jsHandler, hq, hqt, hjs]
  rw [hgo2, hjs2]
  exact ⟨rfl, rfl, string_append_ne_empty _ _ (by decide), rfl, rfl,
    (by decide : "Search failed" ≠ "")⟩

/-- Witness for C2 at the concrete request `q=a` against an engine that
always fails. -/
theorem c2_engine_failure_server_error_witness :
    (searchEndpoint (fun _ _ => Except.error "boom") (some "a") none).status = 500 ∧
    (jsHandler (fun _ _ => Except.error "boom") "GET" (some "a") none).status = 500 := by
  have h := c2_engine_failure_server_error (fun _ _ => Except.error "boom")
    (fun _ _ => Except.error "boom") "a" "boom" "boom" none none
    (by decide) (by decide) rfl rfl
  exact ⟨h.1, h.2.2.2.1⟩

/-- Claim C10: every configuration key goes through `getEnv`, which uses
the environment value only when non-empty and otherwise the built-in
default; with the four non-empty defaults of `loadConfig`, no empty value
can reach the configuration. -/
theorem c10_config_env_defaults (env : GoEnv) (key d : String) :
    (env key ≠ "" → getEnv env key d = env key) ∧
    (env key = "" → getEnv env key d = d) ∧
    loadConfig env =
      { meilisearchURL := getEnv env "MEILISEARCH_URL" "http://meilisearch:7700"
        meilisearchKey := getEnv env "MEILISEARCH_KEY" "masterKey123"
        port := getEnv env "PORT" "8080"
        indexName := getEnv env "INDEX_NAME" "documents" } ∧
    (loadConfig env).meilisearchURL ≠ "" ∧
    (loadConfig env).meilisearchKey ≠ "" ∧
    (loadConfig env).port ≠ "" ∧
    (loadConfig env).indexName ≠ "" := by
  refine ⟨fun h => by simp [getEnv, h], fun h => by simp [getEnv, h], rfl,
    ?_, ?_, ?_, ?_⟩ <;>
    exact getEnv_ne_empty env _ _ (by decide)

/-- Witness for C10 at the empty environment: every field falls back to
its default. -/
theorem c10_config_env_defaults_witness :
    getEnv (fun _ => "") "PORT" "8080" = "8080" ∧
    (loadConfig (fun _ => "")).port ≠ "" := by
  have h := c10_config_env_defaults (fun _ => "") "PORT" "8080"
  exact ⟨h.2.1 rfl, h.2.2.2.2.2.1⟩

/-- Claim C3, counterexample: the handler applies no positivity check to
the parsed limit.  With `limit=0` the value passed onward to the search
engine is `0`, which is not positive — observed here by an engine that
reports back the limit it received. -/
theorem c3_counterexample :
    goComputeLimit (some "0") = 0 ∧
    ¬ 0 < goComputeLimit (some "0") ∧
    (searchEndpoint (fun _ lim => Except.error (toString lim))
        (some "a") (some "0")).error = "Search failed: 0" := by
  decide

/-- Claim C3 as amended: `limit` is optional with default 20 — when the
parameter is absent or fails `strconv.Atoi`, the search runs with limit
20; but a string that parses is passed to the engine unchanged, so the
limit actually used may be zero or negative.  The last conjunct pins
down that the handler consults the engine exactly at
`goComputeLimit limitParam`. -/
theorem c3_limit_default_no_positivity (limitParam : Option String)
    (s q : String) (v : Int) (goEng goEng2 : GoEngine) (hq : q ≠ "")
    (hagree : goEng q (goComputeLimit limitParam) =
      goEng2 q (goComputeLimit limitParam)) :
    goComputeLimit none = 20 ∧
    (atoi s = none → goComputeLimit (some s) = 20) ∧
    (atoi s = some v → goComputeLimit (some s) = v) ∧
    searchEndpoint goEng (some q) limitParam =
      searchEndpoint goEng2 (some q) limitParam := by
  refine ⟨rfl, fun h => by simp [goComputeLimit, h], fun h => by
    simp [goComputeLimit, h], ?_⟩
  simp only [searchEndpoint, performSearch, Option.getD, hq, if_neg hq, hagree]

/-- Witness for the amended C3: a non-numeric limit falls back to 20, a
parseable negative one passes through. -/
theorem c3_limit_default_no_positivity_witness :
    goComputeLimit none = 20 ∧
    goComputeLimit (some "abc") = 20 ∧
    goComputeLimit (some "-5") = -5 := by
  have h1 := c3_limit_default_no_positivity (some "-5") "abc" "a" (-5)
    (fun _ _ => Except.ok []) (fun _ _ => Except.ok []) (by decide) rfl
  have h2 := c3_limit_default_no_positivity (some "-5") "-5" "a" (-5)
    (fun _ _ => Except.ok []) (fun _ _ => Except.ok []) (by decide) rfl
  exact ⟨h1.1, h1.2.1 (by decide), h2.2.2.1 (by decide)⟩

/-! Position lemmas for the result-building loops. -/

theorem goBuildFrom_length (hs : List Hit) :
    ∀ n i, (goBuildFrom n i hs).length = hs.length := by
  induction hs with
  | nil => intro n i; rfl
  | cons h t ih => intro n i; simp [goBuildFrom, ih]

theorem goBuildFrom_get? (hs : List Hit) :
    ∀ n i j, (goBuildFrom n i hs).get? j =
      (hs.get? j).map (fun h => goMkResult n (i + j) h) := by
  induction hs with
  | nil => intro n i j; cases j <;> rfl
  | cons h t ih =>
    intro n i j
    cases j with
    | zero => simp [goBuildFrom]
    | succ j =>
      show (goBuildFrom n (i + 1) t).get? j =
        (t.get? j).map (fun h => goMkResult n (i + (j + 1)) h)
      rw [ih n (i + 1) j]
      have harith : i + 1 + j = i + (j + 1) := by omega
      rw [harith]

theorem jsBuildFrom_length (hs : List Hit) :
    ∀ n i, (jsBuildFrom n i hs).length = hs.length := by
  induction hs with
  | nil => intro n i; rfl
  | cons h t ih => intro n i; simp [jsBuildFrom, ih]

theorem jsBuildFrom_get? (hs : List Hit) :
    ∀ n i j, (jsBuildFrom n i hs).get? j =
      (hs.get? j).map (fun h => jsMkResult n (i + j) h) := by
  induction hs with
  | nil => intro n i j; cases j <;> rfl
  | cons h t ih =>
    intro n i j
    cases j with
    | zero => simp [jsBuildFrom]
    | succ j =>
      show (jsBuildFrom n (i + 1) t).get? j =
        (t.get? j).map (fun h => jsMkResult n (i + (j + 1)) h)
      rw [ih n (i + 1) j]
      have harith : i + 1 + j = i + (j + 1) := by omega
      rw [harith]

/-- Claim C4: in a successful search over `n` hits, the result at
position `i` (0-based, returned order) has score `n - i` — scores depend
only on position, strictly decreasing from the first result.  Proved for
the Go backend's and the JS handler's result builders. -/
theorem c4_score_by_position (hits : List Hit) (i : Nat)
    (r : SearchResult) (jr : JSResult)
    (hgo : (goBuildResults hits).get? i = some r)
    (hjs : (jsBuildResults hits).get? i = some jr) :
    (goBuildResults hits).length = hits.length ∧
    (jsBuildResults hits).length = hits.length ∧
    r.score = (hits.length : Int) - (i : Int) ∧
    jr.score = (hits.length : Int) - (i : Int) := by
  refine ⟨goBuildFrom_length hits hits.length 0,
    jsBuildFrom_length hits hits.length 0, ?_, ?_⟩
  · rw [goBuildResults, goBuildFrom_get? hits hits.length 0 i] at hgo
    cases hh : hits.get? i with
    | none => rw [hh] at hgo; cases hgo
    | some h =>
      rw [hh] at hgo
      have : goMkResult hits.length (0 + i) h = r := by
        simpa using hgo
      rw [← this]
      simp [goMkResult]
  · rw [jsBuildResults, jsBuildFrom_get? hits hits.length 0 i] at hjs
    cases hh : hits.get? i with
    | none => rw [hh] at hjs; cases hjs
    | some h =>
      rw [hh] at hjs
      have : jsMkResult hits.length (0 + i) h = jr := by
        simpa using hjs
      rw [← this]
      simp [jsMkResult]

/-- Witness for C4 on a concrete two-hit list: the first result of both
builders scores `2 - 0`. -/
theorem c4_score_by_position_witness :
    (goBuildResults [[], []]).length = 2 ∧
    (jsBuildResults [[], []]).length = 2 ∧
    (goMkResult 2 0 []).score = ((2 : Nat) : Int) - ((0 : Nat) : Int) := by
  have h := c4_score_by_position [[], []] 0 (goMkResult 2 0 [])
    (jsMkResult 2 0 []) rfl rfl
  exact ⟨h.1, h.2.1, h.2.2.1⟩

/-- Claim C5: a non-empty query whose engine call succeeds yields the
success envelope — success true, the ordered result list built from the
hits (each result a record with id, title, content, url and score
fields), the echoed query, and total equal to the result list's
length.  Proved for both handlers. -/
theorem c5_success_envelope (goEng : GoEngine) (jsEng : JsEngine)
    (q : String) (limitParam jsLimitParam : Option String)
    (hits jhits : List Hit)
    (hq : q ≠ "") (hqt : jsTrim q ≠ "")
    (hgo : goEng q (goComputeLimit limitParam) = Except.ok hits)
    (hjs : jsEng q (jsComputeLimit jsLimitParam) = Except.ok jhits) :
    searchEndpoint goEng (some q) limitParam =
      { status := 200, success := true, results := goBuildResults hits,
        query := q, total := (goBuildResults hits).length } ∧
    (jsHandler jsEng "GET" (some q) jsLimitParam).status = 200 ∧
    (jsHandler jsEng "GET" (some q) jsLimitParam).success = true ∧
    (jsHandler jsEng "GET" (some q) jsLimitParam).results =
      jsBuildResults jhits ∧
    (jsHandler jsEng "GET" (some q) jsLimitParam).query = q ∧
    (jsHandler jsEng "GET" (some q) jsLimitParam).total =
      (jsBuildResults jhits).length := by
  have hjs2 : jsHandler jsEng "GET" (some q) jsLimitParam =
      { status := 200, success := true, results := jsBuildResults jhits,
        query := q, total := (jsBuildResults jhits).length } := by
    simp [jsHandler, hq, hqt, hjs]
  refine ⟨by simp [searchEndpoint, performSearch, hq, hgo], ?_⟩
  rw [hjs2]
  exact ⟨rfl, rfl, rfl, rfl, rfl⟩

/-- Witness for C5 at `q=a` against an engine returning one hit. -/
theorem c5_success_envelope_witness :
    (searchEndpoint (fun _ _ => Except.ok [[("title", JValue.str "t")]])
      (some "a") none).status = 200 ∧
    (jsHandler (fun _ _ => Except.ok [[("title", JValue.str "t")]])
      "GET" (some "a") none).status = 200 := by
  have h := c5_success_envelope
    (fun _ _ => Except.ok [[("title", JValue.str "t")]])
    (fun _ _ => Except.ok [[("title", JValue.str "t")]])
    "a" none none [[("title", JValue.str "t")]] [[("title", JValue.str "t")]]
    (by decide) (by decide) rfl rfl
  exact ⟨by rw [h.1], h.2.1⟩

/-- Claim C9: the Go result-building is total on arbitrary hit lists —
`getString` yields `""` for an absent or non-string field, and every hit
contributes exactly one result, in hit order (`json.Marshal` /
`json.Unmarshal` cannot fail on an already-decoded object, so no hit is
skipped in the embedding). -/
theorem c9_result_building_total (m : Hit) (key : String) (v : JValue)
    (hits : List Hit) (i : Nat) :
    (List.lookup key m = none → getString m key = "") ∧
    (List.lookup key m = some v → (∀ s, v ≠ JValue.str s) →
      getString m key = "") ∧
    (goBuildResults hits).length = hits.length ∧
    (goBuildResults hits).get? i =
      (hits.get? i).map (fun h => goMkResult hits.length i h) := by
  refine ⟨fun h => by simp [getString, h], fun h hv => ?_,
    goBuildFrom_length hits hits.length 0, by
      simpa using goBuildFrom_get? hits hits.length 0 i⟩
  unfold getString
  rw [h]
  cases v with
  | str s => exact absurd rfl (hv s)
  | num n => rfl
  | bool b => rfl
  | null => rfl
  | arr xs => rfl
  | obj fields => rfl

/-- Witness for C9: a hit whose `id` is a number and whose `title` is
absent maps to empty strings in both fields. -/
theorem c9_result_building_total_witness :
    getString [("id", JValue.num 7)] "title" = "" ∧
    getString [("id", JValue.num 7)] "id" = "" ∧
    (goBuildResults [[("id", JValue.num 7)]]).length = 1 := by
  have h1 := c9_result_building_total [("id", JValue.num 7)] "title"
    (JValue.num 7) [[("id", JValue.num 7)]] 0
  have h2 := c9_result_building_total [("id", JValue.num 7)] "id"
    (JValue.num 7) [[("id", JValue.num 7)]] 0
  exact ⟨h1.1 rfl, h2.2.1 rfl (fun s hs => by cases hs), h1.2.2.1⟩

/-! ## Claims about the crawl pipeline (spec-modelled) -/

/-- The Frontier invariant: pending URLs and visited URLs are pairwise
distinct across both collections. -/
def FrontierInv (st : FrontierState) : Prop :=
  (st.queueUrls ++ st.visited).Nodup

theorem offer_visited (cfg : CrawlConfig) (st : FrontierState)
    (e : FrontierEntry) : (offer cfg st e).visited = st.visited := by
  unfold offer
  split
  · rfl
  · split <;> rfl

theorem offer_inv (cfg : CrawlConfig) (st : FrontierState) (e : FrontierEntry)
    (h : FrontierInv st) : FrontierInv (offer cfg st e) := by
  unfold offer
  split
  · exact h
  · split
    · exact h
    · rename_i hn
      push_neg at hn
      unfold FrontierInv FrontierState.queueUrls at *
      simp only [List.map_append, List.map_cons, List.map_nil]
      rw [List.append_assoc]
      show (st.queue.map FrontierEntry.url ++ (e.url :: st.visited)).Nodup
      rw [List.nodup_middle, List.nodup_cons]
      refine ⟨?_, h⟩
      rw [List.mem_append]
      rintro (hc | hc)
      · exact hn.1 hc
      · exact hn.2 hc

theorem ftake_inv (st : FrontierState) (e : FrontierEntry)
    (rest : List FrontierEntry) (hq : st.queue = e :: rest)
    (h : FrontierInv st) :
    e.url ∉ st.visited ∧
    FrontierInv { queue := rest, visited := e.url :: st.visited } := by
  unfold FrontierInv FrontierState.queueUrls at *
  rw [hq] at h
  simp only [List.map_cons, List.cons_append, List.nodup_cons,
    List.mem_append] at h
  push_neg at h
  constructor
  · exact h.1.2
  · simp only [List.map_cons]
    rw [List.nodup_middle, List.nodup_cons]
    refine ⟨?_, h.2⟩
    rw [List.mem_append]
    rintro (hc | hc)
    · exact h.1.1 hc
    · exact h.1.2 hc

theorem runFrontierOps_spec (cfg : CrawlConfig) :
    ∀ ops st, FrontierInv st →
      (((runFrontierOps cfg st ops).2.map FrontierEntry.url).Nodup ∧
       ∀ u ∈ st.visited,
         u ∉ (runFrontierOps cfg st ops).2.map FrontierEntry.url) := by
  intro ops
  induction ops with
  | nil =>
    intro st h
    exact ⟨List.nodup_nil, fun u _ hc => by simp [runFrontierOps] at hc⟩
  | cons op ops ih =>
    intro st h
    cases op with
    | offerOp e =>
      have h2 := offer_inv cfg st e h
      have hr := ih (offer cfg st e) h2
      have hv := offer_visited cfg st e
      simp only [runFrontierOps, applyFrontierOp, Option.toList,
        List.nil_append]
      exact ⟨hr.1, fun u hu => hr.2 u (by rw [hv]; exact hu)⟩
    | takeOp =>
      cases hq : st.queue with
      | nil =>
        have hstep : applyFrontierOp cfg st FrontierOp.takeOp = (st, none) := by
          simp [applyFrontierOp, ftake, hq]
        have hr := ih st h
        simp only [runFrontierOps, hstep, Option.toList, List.nil_append]
        exact hr
      | cons e rest =>
        obtain ⟨hnv, hinv2⟩ := ftake_inv st e rest hq h
        have hstep : applyFrontierOp cfg st FrontierOp.takeOp =
            ({ queue := rest, visited := e.url :: st.visited }, some e) := by
          simp [applyFrontierOp, ftake, hq]
        have hr := ih { queue := rest, visited := e.url :: st.visited } hinv2
        simp only [runFrontierOps, hstep, Option.toList, List.singleton_append,
          List.map_cons, List.nodup_cons]
        refine ⟨⟨hr.2 e.url (by simp), hr.1⟩, fun u hu => ?_⟩
        rw [List.mem_cons]
        push_neg
        constructor
        · intro hc
          exact hnv (hc ▸ hu)
        · exact hr.2 u (by simp [hu])

/-- Claim C7: each normalized URL is dequeued at most once per run — over
any sequence of offers and takes from an empty Frontier the dequeued URLs
are pairwise distinct; once a URL is in the VisitedSet no later take
returns it; and offering an entry whose URL is already pending or visited
is a no-op, not an error. -/
theorem c7_take_at_most_once (cfg : CrawlConfig) (ops ops2 : List FrontierOp)
    (st st2 : FrontierState) (e : FrontierEntry) (u : String)
    (he : e.url ∈ st.queueUrls ∨ e.url ∈ st.visited)
    (hinv : FrontierInv st2) (hu : u ∈ st2.visited) :
    offer cfg st e = st ∧
    ((runFrontierOps cfg { queue := [], visited := [] } ops).2.map
      FrontierEntry.url).Nodup ∧
    u ∉ (runFrontierOps cfg st2 ops2).2.map FrontierEntry.url := by
  refine ⟨?_,
    (runFrontierOps_spec cfg ops { queue := [], visited := [] }
      (by simp [FrontierInv, FrontierState.queueUrls])).1,
    (runFrontierOps_spec cfg ops2 st2 hinv).2 u hu⟩
  by_cases hd : cfg.maxDepth < e.depth
  · simp [offer, hd]
  · simp [offer, hd, he]

/-- Witness for C7: a duplicate offer of a pending URL is dropped, and a
twice-offered URL is taken only once. -/
theorem c7_take_at_most_once_witness :
    offer { maxPages := 10, maxDepth := 10 }
      { queue := [{ url := "a", depth := 0, discoveredFrom := none }],
        visited := [] }
      { url := "a", depth := 0, discoveredFrom := none } =
      { queue := [{ url := "a", depth := 0, discoveredFrom := none }],
        visited := [] } := by
  have h := c7_take_at_most_once { maxPages := 10, maxDepth := 10 }
    [FrontierOp.offerOp { url := "a", depth := 0, discoveredFrom := none },
     FrontierOp.takeOp,
     FrontierOp.offerOp { url := "a", depth := 0, discoveredFrom := none },
     FrontierOp.takeOp]
    []
    { queue := [{ url := "a", depth := 0, discoveredFrom := none }],
      visited := [] }
    { queue := [], visited := ["a"] }
    { url := "a", depth := 0, discoveredFrom := none } "a"
    (Or.inl (by decide)) (by unfold FrontierInv; decide) (by decide)
  exact h.1

/-! ### C6: the page budget -/

theorem crawlStep_fetchCount_le (cfg : CrawlConfig) (web : Web)
    (st : CrawlState) (h : st.fetchCount ≤ cfg.maxPages) :
    (crawlStep cfg web st).fetchCount ≤ cfg.maxPages := by
  obtain ⟨ph, ⟨qu, vis⟩, fc, fp, sk, dv⟩ := st
  cases ph with
  | done => exact h
  | draining => exact h
  | running =>
    cases qu with
    | nil => exact h
    | cons e rest =>
      simp only at h
      by_cases hb : cfg.maxPages ≤ fc
      · simpa [crawlStep, ftake, hb] using h
      · have hlt : fc < cfg.maxPages := Nat.lt_of_not_le hb
        by_cases ha : web.allowed e.url
        · cases hf : web.fetch e.url with
          | none => simp [crawlStep, ftake, hb, ha, hf]; omega
          | some page =>
            by_cases hdup : page.doc.contentHash ∈ fp
            · simp [crawlStep, ftake, hb, ha, hf, shouldIndex, hdup]
              omega
            · simp [crawlStep, ftake, hb, ha, hf, shouldIndex, hdup]
              omega
        · simpa [crawlStep, ftake, hb, ha] using h

theorem crawlRun_fetchCount_le (cfg : CrawlConfig) (web : Web) :
    ∀ fuel st, st.fetchCount ≤ cfg.maxPages →
      (crawlRun cfg web fuel st).fetchCount ≤ cfg.maxPages := by
  intro fuel
  induction fuel with
  | zero => intro st h; exact h
  | succ n ih =>
    intro st h
    exact ih (crawlStep cfg web st) (crawlStep_fetchCount_le cfg web st h)

/-- Claim C6: in every crawl run the number of fetches performed never
exceeds the configured page budget, and reaching the budget makes the
next Running iteration transition to Draining (without fetching), a
normal termination rather than an error. -/
theorem c6_budget_invariant (cfg : CrawlConfig) (web : Web) (fuel : Nat)
    (seeds : List String) (st : CrawlState)
    (hrun : st.phase = Phase.running)
    (hne : st.frontier.queue ≠ [])
    (hfull : cfg.maxPages ≤ st.fetchCount) :
    (crawlRun cfg web fuel (initCrawlState cfg seeds)).fetchCount ≤
      cfg.maxPages ∧
    (crawlStep cfg web st).phase = Phase.draining ∧
    (crawlStep cfg web st).fetchCount = st.fetchCount := by
  refine ⟨crawlRun_fetchCount_le cfg web fuel _ (Nat.zero_le _), ?_, ?_⟩ <;>
  · obtain ⟨ph, ⟨qu, vis⟩, fc, fp, sk, dv⟩ := st
    cases ph with
    | done => cases hrun
    | draining => cases hrun
    | running =>
      cases qu with
      | nil => exact absurd rfl hne
      | cons e rest =>
        simp only at hfull
        simp [crawlStep, ftake, hfull]

/-- Witness for C6: a budget of one page with two seeds fetches exactly
once, and an exhausted budget drains. -/
theorem c6_budget_invariant_witness :
    (crawlRun { maxPages := 1, maxDepth := 5 }
      { allowed := fun _ => true,
        fetch := fun u =>
          some { doc := { id := 0, title := "t", content := "c",
                          url := u, contentHash := 0 }, links := [] } }
      6
      (initCrawlState { maxPages := 1, maxDepth := 5 }
        ["http://a.test/", "http://b.test/"])).fetchCount ≤ 1 := by
  have h := c6_budget_invariant { maxPages := 1, maxDepth := 5 }
    { allowed := fun _ => true,
      fetch := fun u =>
        some { doc := { id := 0, title := "t", content := "c",
                        url := u, contentHash := 0 }, links := [] } }
    6 ["http://a.test/", "http://b.test/"]
    { phase := Phase.running,
      frontier := { queue := [{ url := "x", depth := 0, discoveredFrom := none }],
                    visited := [] },
      fetchCount := 1, fingerprints := [], sink := [], delivered := [] }
    rfl (by decide) (by decide)
  exact h.1

/-! ### C8: content deduplication -/

theorem dedupFlags_get? (hashes : List Nat) :
    ∀ reg i b, (dedupFlags reg hashes).get? i = some b →
      ∃ h, hashes.get? i = some h ∧
        (b = true ↔ (h ∉ reg ∧ h ∉ hashes.take i)) := by
  induction hashes with
  | nil => intro reg i b hb; simp [dedupFlags] at hb
  | cons h0 hs ih =>
    intro reg i b hb
    by_cases hmem : h0 ∈ reg
    · have hflags : dedupFlags reg (h0 :: hs) = false :: dedupFlags reg hs := by
        simp [dedupFlags, shouldIndex, hmem]
      rw [hflags] at hb
      cases i with
      | zero =>
        have hb2 : b = false := by simpa using hb.symm
        subst hb2
        exact ⟨h0, rfl, by simp [hmem]⟩
      | succ i =>
        obtain ⟨h, hh, hiff⟩ := ih reg i b (by simpa using hb)
        refine ⟨h, by simpa using hh, hiff.trans ?_⟩
        have himp : h ∉ reg → h ≠ h0 := fun hn he => hn (he ▸ hmem)
        simp only [List.take_succ_cons, List.mem_cons]
        constructor
        · rintro ⟨hnr, hnt⟩
          exact ⟨hnr, fun hc => hc.elim (fun x => himp hnr x) (fun x => hnt x)⟩
        · rintro ⟨hnr, hnt⟩
          exact ⟨hnr, fun hc => hnt (Or.inr hc)⟩
    · have hflags : dedupFlags reg (h0 :: hs) =
          true :: dedupFlags (h0 :: reg) hs := by
        simp [dedupFlags, shouldIndex, hmem]
      rw [hflags] at hb
      cases i with
      | zero =>
        have hb2 : b = true := by simpa using hb.symm
        subst hb2
        exact ⟨h0, rfl, by simp [hmem]⟩
      | succ i =>
        obtain ⟨h, hh, hiff⟩ := ih (h0 :: reg) i b (by simpa using hb)
        refine ⟨h, by simpa using hh, hiff.trans ?_⟩
        simp only [List.take_succ_cons, List.mem_cons]
        constructor
        · rintro ⟨hnr, hnt⟩
          push_neg at hnr
          exact ⟨hnr.2, fun hc => hc.elim (fun x => hnr.1 x) (fun x => hnt x)⟩
        · rintro ⟨hnr, hnt⟩
          push_neg at hnt
          exact ⟨by simp [hnt.1, hnr], hnt.2⟩

/-- Claim C8: within one run, for documents whose content hashes collide,
`shouldIndex` answers true exactly for the first one encountered —
registering its hash — and false for every later one: processing a hash
sequence from an empty registry, the decision at position `i` is true iff
that hash does not occur among the first `i` hashes. -/
theorem c8_dedup_first_only (reg : List Nat) (h0 : Nat) (hashes : List Nat)
    (i : Nat) (b : Bool)
    (hb : (dedupFlags [] hashes).get? i = some b) :
    (h0 ∈ reg → shouldIndex reg h0 = (false, reg)) ∧
    (h0 ∉ reg → shouldIndex reg h0 = (true, h0 :: reg)) ∧
    ∃ h, hashes.get? i = some h ∧ (b = true ↔ h ∉ hashes.take i) := by
  refine ⟨fun hm => by simp [shouldIndex, hm],
    fun hm => by simp [shouldIndex, hm], ?_⟩
  obtain ⟨h, hh, hiff⟩ := dedupFlags_get? hashes [] i b hb
  exact ⟨h, hh, hiff.trans (by simp)⟩

/-- Witness for C8: with hash sequence `[5, 5]` the first occurrence is
indexed and registered, the second suppressed. -/
theorem c8_dedup_first_only_witness :
    shouldIndex [] 5 = (true, [5]) ∧ shouldIndex [5] 5 = (false, [5]) := by
  have h1 := c8_dedup_first_only [5] 5 [5, 5] 1 false rfl
  have h2 := c8_dedup_first_only [] 5 [5, 5] 1 false rfl
  exact ⟨h2.2.1 (by decide), h1.1 (by decide)⟩

end SearchEngine
